import Mathlib

/-!
Verification of the AgriScheme eligibility-matching and relevance-ranking
core (backend/routes.py, backend/ranking_service.py,
backend/add_new_schemes.py), shallowly embedded in Lean 4.

Modelling conventions:
* Python floats are modelled by `ℚ` (exact arithmetic; the decimal literals
  0.6 / 0.4 / 0.5 are exact in this idealisation).
* A MongoDB scheme document is a record `Scheme`; fields that the code reads
  with `dict.get(key, default)` and that are always present after ingestion
  are plain fields, while `season` (tested with `$exists`) and
  `relevance_score` (attached only by the ranker, never persisted) are
  `Option` fields.
* The TF-IDF vectorisation + cosine similarity step
  (`TfidfVectorizer.fit_transform` / `cosine_similarity`, an external
  library) is abstracted as a `SimOracle`: given the farmer document and the
  scheme documents it either returns the list of similarity values or fails
  (`none`), which models the `except Exception` branch of `rank_schemes`.
  Everything the ranker does around that call is embedded faithfully.
-/

/-- A scheme document, as projected by the eligibility route
(`routes.py`, projection in `get_eligible_schemes`). -/
structure Scheme where
  scheme_name : String
  type : String
  benefit : String
  benefit_amount : ℚ
  states : List String
  crops : List String
  season : Option String
  min_land : ℚ
  max_land : ℚ
  /-- English description text (the code extracts the "en" entry when the
  stored description is a language map). -/
  description : String
  /-- Transient field attached by the ranker; `none` in stored documents. -/
  relevance_score : Option ℚ
deriving DecidableEq, Repr

/-- Round-half-to-even on a rational, as Python round does on the exact
value (ties go to the even integer). -/
def roundHalfEven (q : ℚ) : ℤ :=
  let n := ⌊q⌋
  let f := q - (n : ℚ)
  if f < 1/2 then n
  else if 1/2 < f then n + 1
  else if n % 2 = 0 then n else n + 1

/-- Python `round(x, 4)`: round to four decimal places, ties to even. -/
def round4 (q : ℚ) : ℚ :=
  (roundHalfEven (q * 10000) : ℚ) / 10000

/-- Model of `_build_farmer_profile` from ranking_service.py. -/
def build_farmer_profile (state crop : String) (land_size : ℚ) (season : String) : String :=
  let size_category := if 4 < land_size then "large" else if 2 < land_size then "medium" else "small"
  s!"Farmer in {state} growing {crop} crop during {season} season with {land_size} hectares of {size_category} land holding. {crop} cultivation in {state} {season}."

/-- Model of `_build_scheme_profile` from ranking_service.py: concatenate the text
fields of a scheme into one document (empty strings are skipped by the
truthiness tests in the code; the two state/crop joins and the final
"medium farmer" token are appended unconditionally). -/
def build_scheme_profile (s : Scheme) : String :=
  let parts : List String :=
    (if s.scheme_name = "" then [] else [s.scheme_name]) ++
    (if s.type = "" then [] else [s.type]) ++
    (if s.benefit = "" then [] else [s.benefit]) ++
    (if s.description = "" then [] else [s.description]) ++
    [" ".intercalate s.states] ++
    [" ".intercalate s.crops] ++
    (match s.season with
      | none => []
      | some v => if v = "" then [] else [v]) ++
    (if s.min_land ≤ 2 then ["small farmer marginal"] else []) ++
    (if 10 ≤ s.max_land then ["large farmer"] else []) ++
    ["medium farmer"]
  " ".intercalate parts

/-- Abstraction of the TF-IDF + cosine-similarity computation: from the
farmer document and the scheme documents, either the per-scheme similarity
values (in document order) or a failure, modelling an exception raised
anywhere inside the `try` block of `rank_schemes`. -/
def SimOracle : Type :=
  String → List String → Option (List ℚ)

/-- Model of `max((s.get("benefit_amount", 0) for s in schemes), default=1)` in
`rank_schemes` (the default is only taken for an empty list). -/
def rawMaxBenefit (schemes : List Scheme) : ℚ :=
  match schemes.map (fun s => s.benefit_amount) with
  | [] => 1
  | b :: bs => bs.foldl max b

/-- The benefit denominator actually used by `rank_schemes`: the maximum
benefit amount, with the `if max_benefit == 0: max_benefit = 1` guard. -/
def codeMaxBenefit (schemes : List Scheme) : ℚ :=
  if rawMaxBenefit schemes = 0 then 1 else rawMaxBenefit schemes

/-- The per-scheme blended score of `rank_schemes`:
`round(0.6 * tfidf_score + 0.4 * benefit_norm, 4)`. -/
def combined_score (max_benefit tfidf_score : ℚ) (s : Scheme) : ℚ :=
  round4 (0.6 * tfidf_score + 0.4 * (s.benefit_amount / max_benefit))

/-- The scoring loop of `rank_schemes`: scheme `i` is scored with
`similarities[i]` and the shared benefit denominator. -/
def score_schemes (sims : List ℚ) (schemes : List Scheme) : List Scheme :=
  schemes.enum.map (fun p =>
    { p.2 with relevance_score := some (combined_score (codeMaxBenefit schemes) (sims.getD p.1 0) p.2) })

/-- The sort comparator of `rank_schemes`:
`key=lambda s: s.get("relevance_score", 0), reverse=True` — descending by
score; Python sorts are stable, as is `List.mergeSort`. -/
def rankLE (a b : Scheme) : Bool :=
  decide (b.relevance_score.getD 0 ≤ a.relevance_score.getD 0)

/-- Body of the `try` block of `rank_schemes` (reached when the list has at
least two schemes), including the `except Exception` fallback that assigns
the neutral score 0.5 to every scheme and returns them in input order. -/
def rank_many (sim : SimOracle) (schemes : List Scheme)
    (state crop : String) (land_size : ℚ) (season : String) : List Scheme :=
  let farmer_profile := build_farmer_profile state crop land_size season
  let scheme_profiles := schemes.map build_scheme_profile
  match sim farmer_profile scheme_profiles with
  | none => schemes.map (fun s => { s with relevance_score := some 0.5 })
  | some sims => (score_schemes sims schemes).mergeSort rankLE

/-- Model of `rank_schemes` from ranking_service.py. -/
def rank_schemes (sim : SimOracle) (schemes : List Scheme)
    (state crop : String) (land_size : ℚ) (season : String) : List Scheme :=
  match schemes with
  | [] => []
  | [s] => [{ s with relevance_score := some 1 }]
  | s1 :: s2 :: rest => rank_many sim (s1 :: s2 :: rest) state crop land_size season

/-- State condition of the eligibility query in `get_eligible_schemes`:
`{"states": {"$in": [state, "All", "All India"]}}` — a multikey `$in`
matches when the stored array shares an element with the given list. -/
def state_matches (sch : Scheme) (state : String) : Bool :=
  sch.states.any (fun s => s = state || s = "All" || s = "All India")

/-- Crop condition: `{"crops": {"$in": [crop, "All", "All Crops"]}}`. -/
def crop_matches (sch : Scheme) (crop : String) : Bool :=
  sch.crops.any (fun c => c = crop || c = "All" || c = "All Crops")

/-- Land condition: `{"min_land": {"$lte": land_size}}` and
`{"max_land": {"$gte": land_size}}` (boundary inclusive). -/
def land_matches (sch : Scheme) (land_size : ℚ) : Bool :=
  decide (sch.min_land ≤ land_size) && decide (land_size ≤ sch.max_land)

/-- Season condition: added to the query only when the request supplied a
(non-empty) season; then the scheme season must equal it, or be "All",
or be the empty string, or be absent (`$exists: False`). -/
def season_matches (sch : Scheme) (season : Option String) : Bool :=
  match season with
  | none => true
  | some s =>
      decide (sch.season = some s) || decide (sch.season = some "All") ||
      decide (sch.season = some "") || decide (sch.season = none)

/-- The full eligibility predicate of `get_eligible_schemes` (conjunction of
the four query conditions). -/
def eligible (sch : Scheme) (state crop : String) (land_size : ℚ)
    (season : Option String) : Bool :=
  state_matches sch state && crop_matches sch crop &&
  land_matches sch land_size && season_matches sch season

/-- The route-level post-filter step of `get_eligible_schemes`: the ranker
is invoked only when more than one scheme came back from the query
(`if len(schemes) > 1`), with `season or "All"` as the season argument. -/
def eligible_response (sim : SimOracle) (schemes : List Scheme)
    (state crop : String) (land_size : ℚ) (season : Option String) : List Scheme :=
  if 1 < schemes.length then
    rank_schemes sim schemes state crop land_size (season.getD "All")
  else schemes

/-- The `crop_map` dictionary of `_normalise_crops` in add_new_schemes.py. -/
def crop_alias (c : String) : Option String :=
  if c = "All Crops" then some "All"
  else if c = "All" then some "All"
  else if c = "All Notified Crops" then some "All"
  else if c = "Food Crops" then some "All"
  else if c = "Agriculture" then some "All"
  else none

/-- One step of the `_normalise_crops` loop: `mapped = crop_map.get(c)`,
`if mapped: ... else: ...` (every map value is the non-empty string "All",
so Python truthiness coincides with `Option.isSome`). -/
def crop_fold (c : String) : String :=
  match crop_alias c with
  | some m => m
  | none => c

/-- Model of `_normalise_crops` from add_new_schemes.py.  The Python set of mapped
names is modelled as `dedup`, and `sorted(...)` as a `mergeSort`; both
produce the sorted list of the distinct mapped names. -/
def normalise_crops (crops_list : List String) : List String :=
  let normalised := (crops_list.map crop_fold).dedup
  if "All" ∈ normalised then ["All"]
  else normalised.mergeSort (fun a b => decide (a ≤ b))

/-- The character class of the regex `[\d,]+` in `_parse_benefit_amount`
(ASCII digits in this embedding). -/
def isDigitOrComma (c : Char) : Bool :=
  c.isDigit || c = ','

/-- Model of `re.findall(r"[\d,]+", ...)`: the maximal runs of digit-or-comma
characters, in order. -/
def numTokens : List Char → List (List Char)
  | [] => []
  | c :: rest =>
    if isDigitOrComma c then
      (c :: rest.takeWhile isDigitOrComma) :: numTokens (rest.dropWhile isDigitOrComma)
    else
      numTokens rest
termination_by cs => cs.length
decreasing_by
  · have h := (List.dropWhile_sublist (l := rest) isDigitOrComma).length_le
    simp only [List.length_cons]
    omega
  · simp only [List.length_cons]
    omega

/-- Numeric value of a digit string. -/
def digitsToNat (cs : List Char) : ℕ :=
  cs.foldl (fun acc c => 10 * acc + (c.toNat - 48)) 0

/-- Python `float(token)` restricted to the tokens this code can produce:
it succeeds exactly on non-empty all-digit tokens (an empty or comma-only
token raises ValueError, which the code turns into the 0 fallback). -/
def pyFloatOfToken (cs : List Char) : Option ℚ :=
  if cs ≠ [] ∧ cs.all Char.isDigit then some (digitsToNat cs : ℚ) else none

/-- The token pipeline of `_parse_benefit_amount` on an already
comma-stripped character list: collect the `[\d,]+` tokens, take the first,
strip commas from it again (`nums[0].replace(",", "")`) and parse it with
`float`, falling back to 0 on a ValueError or when there is no token. -/
def parse_from_chars (cs : List Char) : ℚ :=
  match numTokens cs with
  | [] => 0
  | t :: _ =>
    match pyFloatOfToken (t.filter (fun c => c ≠ ',')) with
    | some v => v
    | none => 0

/-- Model of `_parse_benefit_amount` from routes.py: empty string gives 0; otherwise
commas are stripped (`.replace(",", "")`) and the first `[\d,]+` token is
parsed. -/
def parse_benefit_amount (benefit_str : String) : ℚ :=
  if benefit_str = "" then 0
  else parse_from_chars (benefit_str.toList.filter (fun c => c ≠ ','))

/-- The `benefit_amount` stored by the `add_scheme` route: the explicit
value when the request carries one, otherwise
`_parse_benefit_amount(data.get("benefit", ""))`. -/
def stored_benefit_amount (explicit : Option ℚ) (benefit : String) : ℚ :=
  match explicit with
  | some v => v
  | none => parse_benefit_amount benefit

/-- Forget the transient ranking annotation of a scheme (used to state that
ranking changes nothing but `relevance_score`). -/
def clear_score (s : Scheme) : Scheme :=
  { s with relevance_score := none }

/-- The benefit-normalisation denominator as the specification words it:
`max(benefitAmount over all candidate schemes, 1)`, that is, the maximum of
the benefit amounts and the number 1 together. -/
def spec_claim_denominator (schemes : List Scheme) : ℚ :=
  (schemes.map (fun s => s.benefit_amount)).foldl max 1

/-- Spec-side description of the derived benefit amount: the value of the
first maximal digit run of the benefit text with commas stripped, or 0 when
there is none. -/
def firstDigitRun (cs : List Char) : List Char :=
  (cs.dropWhile (fun c => !c.isDigit)).takeWhile Char.isDigit

/-- Value of the first maximal digit run of a character list, 0 if none. -/
def spec_from_chars (cs : List Char) : ℚ :=
  if firstDigitRun cs = [] then 0 else (digitsToNat (firstDigitRun cs) : ℚ)

/-- Spec-side benefit extraction (the wording of the spec sentence for
`benefitAmount`), to be compared with `parse_benefit_amount`. -/
def spec_benefit_value (s : String) : ℚ :=
  spec_from_chars (s.toList.filter (fun c => c ≠ ','))

/-- A similarity oracle that never fails and reports similarity 0 for every
scheme document (used to instantiate theorems at concrete inputs). -/
def constSim : SimOracle :=
  fun _ docs => some (docs.map (fun _ => 0))

/-- A similarity oracle that always fails, modelling a vectorisation
exception. -/
def failSim : SimOracle :=
  fun _ _ => none

/-- A universal central scheme, as produced by the eligibility projection
(no `relevance_score`, since that field is never persisted). -/
def wA : Scheme :=
  { scheme_name := "PM-KISAN"
    type := "Income Support"
    benefit := "Rs 6,000 per year"
    benefit_amount := 6000
    states := ["All"]
    crops := ["All"]
    season := some "All"
    min_land := 0
    max_land := 100
    description := "Income support for farmer families"
    relevance_score := none }

/-- A state-specific scheme with a larger benefit. -/
def wB : Scheme :=
  { scheme_name := "Punjab Wheat Support"
    type := "Subsidy"
    benefit := "Rs 20,000 per season"
    benefit_amount := 20000
    states := ["Punjab"]
    crops := ["Wheat"]
    season := some "Rabi"
    min_land := 0
    max_land := 100
    description := "Wheat support for Punjab"
    relevance_score := none }

/-- A scheme whose benefit amount is the fractional value 1/2 (a numeric
benefit amount strictly between 0 and 1, which the data model allows). -/
def cxA : Scheme :=
  { wA with scheme_name := "Fractional Benefit Scheme", benefit_amount := 1/2 }

/-- A scheme carrying no monetary benefit. -/
def cxB : Scheme :=
  { wB with scheme_name := "Zero Benefit Scheme", benefit_amount := 0 }

/-- A scheme textually identical to `wA` but with a larger benefit amount
(the benefit amount itself is not part of the synthesised text). -/
def wC : Scheme :=
  { wA with benefit_amount := 9000 }

theorem rankLE_trans (a b c : Scheme) (hab : rankLE a b) (hbc : rankLE b c) : rankLE a c := by
  simp only [rankLE, decide_eq_true_eq] at hab hbc ⊢
  exact le_trans hbc hab

theorem rankLE_total (a b : Scheme) : rankLE a b || rankLE b a := by
  simp only [rankLE, Bool.or_eq_true, decide_eq_true_eq]
  exact le_total _ _

/-- A stable sort leaves the elements selected by a predicate that pins
down the sort key in their original relative order: filtering commutes with
`mergeSort` whenever the comparison accepts any two selected elements. -/
theorem mergeSort_filter_fixed {α : Type} (le : α → α → Bool)
    (htrans : ∀ a b c, le a b → le b c → le a c)
    (htotal : ∀ a b, le a b || le b a)
    (l : List α) (p : α → Bool)
    (hp : ∀ a b, p a = true → p b = true → le a b = true) :
    (l.mergeSort le).filter p = l.filter p := by
  have hc : (l.filter p).Pairwise (fun a b => le a b = true) :=
    List.pairwise_of_forall_mem_list (fun a ha b hb =>
      hp a b (List.of_mem_filter ha) (List.of_mem_filter hb))
  have hsub : (l.filter p).Sublist (l.mergeSort le) :=
    List.sublist_mergeSort htrans htotal hc (List.filter_sublist l)
  have hself : (l.filter p).filter p = l.filter p :=
    List.filter_eq_self.mpr (fun a ha => List.of_mem_filter ha)
  have h2 : (l.filter p).Sublist ((l.mergeSort le).filter p) := by
    have := hsub.filter p
    rwa [hself] at this
  have hperm : ((l.mergeSort le).filter p).Perm (l.filter p) :=
    (List.mergeSort_perm l le).filter p
  exact (h2.eq_of_length hperm.length_eq.symm).symm

theorem enumFrom_map_snd {α β : Type} (g : α → β) :
    ∀ (n : ℕ) (l : List α), (l.enumFrom n).map (fun p => g p.2) = l.map g
  | _, [] => rfl
  | n, a :: t => by
    simp only [List.enumFrom_cons, List.map_cons, List.map]
    rw [enumFrom_map_snd g (n + 1) t]

theorem le_foldl_max (l : List ℚ) (init : ℚ) : init ≤ l.foldl max init := by
  induction l generalizing init with
  | nil => exact le_refl _
  | cons a t ih =>
    exact le_trans (le_max_left init a) (ih (max init a))

theorem mem_le_foldl_max (l : List ℚ) : ∀ (init x : ℚ), x ∈ l → x ≤ l.foldl max init := by
  induction l with
  | nil => intro _ _ hx; cases hx
  | cons a t ih =>
    intro init x hx
    rcases List.mem_cons.mp hx with rfl | hmem
    · exact le_trans (le_max_right init x) (le_foldl_max t (max init x))
    · exact ih (max init a) x hmem

theorem mem_le_rawMaxBenefit (schemes : List Scheme) (s : Scheme) (hs : s ∈ schemes) :
    s.benefit_amount ≤ rawMaxBenefit schemes := by
  unfold rawMaxBenefit
  have hmem : s.benefit_amount ∈ schemes.map (fun t => t.benefit_amount) :=
    List.mem_map_of_mem _ hs
  cases hb : schemes.map (fun t => t.benefit_amount) with
  | nil => rw [hb] at hmem; cases hmem
  | cons b bs =>
    rw [hb] at hmem
    rcases List.mem_cons.mp hmem with rfl | hmem2
    · exact le_foldl_max bs s.benefit_amount
    · exact mem_le_foldl_max bs b s.benefit_amount hmem2

theorem roundHalfEven_mono {x y : ℚ} (h : x ≤ y) : roundHalfEven x ≤ roundHalfEven y := by
  simp only [roundHalfEven]
  have hf : ⌊x⌋ ≤ ⌊y⌋ := Int.floor_mono h
  rcases eq_or_lt_of_le hf with heq | hlt
  · rw [← heq]
    have hxy : x - (⌊x⌋ : ℚ) ≤ y - (⌊x⌋ : ℚ) := by linarith
    split_ifs <;> first | omega | linarith
  · split_ifs <;> omega

theorem round4_mono {x y : ℚ} (h : x ≤ y) : round4 x ≤ round4 y := by
  unfold round4
  have h1 : x * 10000 ≤ y * 10000 := by linarith
  have h2 : ((roundHalfEven (x * 10000) : ℤ) : ℚ) ≤ ((roundHalfEven (y * 10000) : ℤ) : ℚ) := by
    exact_mod_cast roundHalfEven_mono h1
  gcongr

/-- C3: `rank_schemes` on the empty list returns the empty list, and on a
singleton returns that scheme with relevance score 1.0; both results are
the same for every similarity oracle, i.e. the similarity machinery is
never consulted on these inputs. -/
theorem rank_schemes_small_noop (sim : SimOracle) (state crop : String)
    (land_size : ℚ) (season : String) :
    rank_schemes sim [] state crop land_size season = [] ∧
    ∀ s : Scheme, rank_schemes sim [s] state crop land_size season
      = [{ s with relevance_score := some 1 }] :=
  ⟨rfl, fun _ => rfl⟩

/-- C2: when the similarity computation fails (the oracle returns `none`,
modelling any exception inside the `try` block), `rank_schemes` on a list
of at least two schemes assigns the constant neutral score 0.5 to every
candidate and returns them in their input (benefit-sorted) order, without
propagating the failure. -/
theorem rank_schemes_fallback (sim : SimOracle) (schemes : List Scheme)
    (state crop : String) (land_size : ℚ) (season : String)
    (h2 : 2 ≤ schemes.length)
    (hfail : sim (build_farmer_profile state crop land_size season)
        (schemes.map build_scheme_profile) = none) :
    rank_schemes sim schemes state crop land_size season
      = schemes.map (fun s => { s with relevance_score := some 0.5 }) := by
  match schemes with
  | [] => simp at h2
  | [_] => simp at h2
  | s1 :: s2 :: rest =>
    show rank_many sim (s1 :: s2 :: rest) state crop land_size season = _
    simp only [rank_many]
    rw [hfail]

/-- Witness for C2 at a concrete two-scheme input with a failing oracle. -/
theorem rank_schemes_fallback_witness :
    rank_schemes failSim [wA, wB] "Punjab" "Wheat" 3 "Rabi"
      = [wA, wB].map (fun s => { s with relevance_score := some 0.5 }) :=
  rank_schemes_fallback failSim [wA, wB] "Punjab" "Wheat" 3 "Rabi" (by decide) rfl

/-- C4: omitting the season from the profile never excludes a scheme that
the same query with some season supplied would have included — the
season-free predicate is implied by the season-filtering one. -/
theorem season_skip_superset (sch : Scheme) (state crop : String)
    (land_size : ℚ) (s : String)
    (h : eligible sch state crop land_size (some s) = true) :
    eligible sch state crop land_size none = true := by
  simp only [eligible, Bool.and_eq_true] at h ⊢
  exact ⟨h.1, rfl⟩

/-- Witness for C4: a scheme eligible under season "Rabi" stays eligible
with the season omitted. -/
theorem season_skip_superset_witness :
    eligible wB "Punjab" "Wheat" 3 none = true :=
  season_skip_superset wB "Punjab" "Wheat" 3 "Rabi" (by decide)

/-- C5: a scheme whose state list is exactly `["All"]` passes the filter
for every (in particular every non-empty, possibly nonsensical) state
string, whenever the crop, land and season conditions hold. -/
theorem state_sentinel_universal (sch : Scheme) (crop : String)
    (land_size : ℚ) (season : Option String)
    (hall : sch.states = ["All"])
    (hcrop : crop_matches sch crop = true)
    (hland : land_matches sch land_size = true)
    (hseason : season_matches sch season = true) :
    ∀ state : String, state ≠ "" → eligible sch state crop land_size season = true := by
  intro state _
  simp [eligible, state_matches, hall, hcrop, hland, hseason]

/-- Witness for C5: the universal scheme is returned even for the
nonexistent state "Atlantis". -/
theorem state_sentinel_universal_witness :
    eligible wA "Atlantis" "Rice" 1 (some "Kharif") = true :=
  state_sentinel_universal wA "Rice" 1 (some "Kharif") rfl (by decide) (by decide)
    (by decide) "Atlantis" (by decide)

/-- C6: if, after alias folding, the crop list contains "All" (in
particular together with specific crop names), `_normalise_crops` returns
exactly `["All"]`. -/
theorem crop_all_absorption (crops_list : List String)
    (hAll : "All" ∈ crops_list.map crop_fold)
    (hspecific : ∃ c ∈ crops_list, crop_fold c ≠ "All") :
    normalise_crops crops_list = ["All"] := by
  simp only [normalise_crops]
  rw [if_pos (List.mem_dedup.mpr hAll)]

/-- Witness for C6 on a list holding an "All" alias next to a specific
crop. -/
theorem crop_all_absorption_witness :
    normalise_crops ["All Crops", "Wheat"] = ["All"] :=
  crop_all_absorption ["All Crops", "Wheat"] (by decide)
    ⟨"Wheat", by decide, by decide⟩

/-- C10: ranking only reorders the list and touches only the
`relevance_score` field: after erasing that field, the output of
`rank_schemes` is a permutation of the input, for every oracle (hence on
the success path and on the exception-fallback path alike). -/
theorem rank_schemes_frame (sim : SimOracle) (schemes : List Scheme)
    (state crop : String) (land_size : ℚ) (season : String) :
    ((rank_schemes sim schemes state crop land_size season).map clear_score).Perm
      (schemes.map clear_score) := by
  match schemes with
  | [] => exact List.Perm.refl _
  | [s] => exact List.Perm.refl _
  | s1 :: s2 :: rest =>
    show ((rank_many sim (s1 :: s2 :: rest) state crop land_size season).map clear_score).Perm _
    simp only [rank_many]
    cases hsim : sim (build_farmer_profile state crop land_size season)
        ((s1 :: s2 :: rest).map build_scheme_profile) with
    | none =>
      simp only [List.map_map]
      exact List.Perm.refl _
    | some sims =>
      have hperm := (List.mergeSort_perm (score_schemes sims (s1 :: s2 :: rest)) rankLE).map clear_score
      have heq : (score_schemes sims (s1 :: s2 :: rest)).map clear_score
          = (s1 :: s2 :: rest).map clear_score := by
        unfold score_schemes List.enum
        rw [List.map_map]
        exact enumFrom_map_snd clear_score 0 (s1 :: s2 :: rest)
      rw [heq] at hperm
      exact hperm

theorem takeWhile_agree {α : Type} (p q : α → Bool) :
    ∀ l : List α, (∀ a ∈ l, p a = q a) → l.takeWhile p = l.takeWhile q := by
  intro l
  induction l with
  | nil => intro _; rfl
  | cons a t ih =>
    intro h
    have ha := h a (List.mem_cons_self a t)
    have ht := ih (fun b hb => h b (List.mem_cons_of_mem a hb))
    by_cases hpa : p a = true
    · rw [List.takeWhile_cons_of_pos hpa, List.takeWhile_cons_of_pos (ha ▸ hpa), ht]
    · have hpa2 : ¬ q a = true := by rw [← ha]; exact hpa
      rw [List.takeWhile_cons_of_neg hpa, List.takeWhile_cons_of_neg hpa2]

theorem numTokens_cons_pos {c : Char} {rest : List Char} (h : isDigitOrComma c = true) :
    numTokens (c :: rest)
      = (c :: rest.takeWhile isDigitOrComma) :: numTokens (rest.dropWhile isDigitOrComma) := by
  simp [numTokens, h]

theorem numTokens_cons_neg {c : Char} {rest : List Char} (h : isDigitOrComma c = false) :
    numTokens (c :: rest) = numTokens rest := by
  simp [numTokens, h]

/-- On comma-free input, the token pipeline of `_parse_benefit_amount`
(first `[\d,]+` token, comma-stripped, parsed by `float`, 0 as fallback)
computes exactly the value of the first maximal digit run. -/
theorem parse_from_chars_eq_spec :
    ∀ cs : List Char, (∀ c ∈ cs, c ≠ ',') → parse_from_chars cs = spec_from_chars cs := by
  intro cs
  induction cs with
  | nil =>
    intro _
    simp [parse_from_chars, numTokens, spec_from_chars, firstDigitRun]
  | cons c rest ih =>
    intro hnc
    have hcne : c ≠ ',' := hnc c (List.mem_cons_self c rest)
    by_cases hd : c.isDigit = true
    · have hio : isDigitOrComma c = true := by simp [isDigitOrComma, hd]
      have htw : rest.takeWhile isDigitOrComma = rest.takeWhile Char.isDigit := by
        apply takeWhile_agree
        intro a hamem
        have hane : a ≠ ',' := hnc a (List.mem_cons_of_mem c hamem)
        simp [isDigitOrComma, hane]
      have hmemtw : ∀ a ∈ rest.takeWhile Char.isDigit, a ∈ rest := fun a haa =>
        (List.takeWhile_sublist Char.isDigit).subset haa
      have hfilter :
          (c :: rest.takeWhile Char.isDigit).filter (fun x => x ≠ ',') =
            c :: rest.takeWhile Char.isDigit := by
        apply List.filter_eq_self.mpr
        intro a hamem
        rcases List.mem_cons.mp hamem with rfl | hmem2
        · simpa using hcne
        · simpa using hnc a (List.mem_cons_of_mem c (hmemtw a hmem2))
      have hall : (c :: rest.takeWhile Char.isDigit).all Char.isDigit = true := by
        simp only [List.all_cons, Bool.and_eq_true, List.all_eq_true]
        exact ⟨hd, fun a haa => List.mem_takeWhile_imp haa⟩
      have hfloat : pyFloatOfToken (c :: rest.takeWhile Char.isDigit)
          = some (digitsToNat (c :: rest.takeWhile Char.isDigit) : ℚ) := by
        unfold pyFloatOfToken
        rw [if_pos ⟨List.cons_ne_nil c _, hall⟩]
      have hdrop : List.dropWhile (fun x => !x.isDigit) (c :: rest) = c :: rest :=
        List.dropWhile_cons_of_neg (by simp [hd])
      have hrun : firstDigitRun (c :: rest) = c :: rest.takeWhile Char.isDigit := by
        unfold firstDigitRun
        rw [hdrop, List.takeWhile_cons_of_pos hd]
      simp only [parse_from_chars, numTokens_cons_pos hio, htw, hfilter, hfloat]
      simp only [spec_from_chars, hrun]
      rw [if_neg (List.cons_ne_nil c _)]
    · have hdf : c.isDigit = false := by
        cases hdig : c.isDigit
        · rfl
        · exact absurd hdig hd
      have hio : isDigitOrComma c = false := by
        simp [isDigitOrComma, hdf, hcne]
      have h1 : parse_from_chars (c :: rest) = parse_from_chars rest := by
        simp only [parse_from_chars, numTokens_cons_neg hio]
      have hdrop2 : List.dropWhile (fun x => !x.isDigit) (c :: rest)
          = List.dropWhile (fun x => !x.isDigit) rest :=
        List.dropWhile_cons_of_pos (by simp [hdf])
      have h2 : spec_from_chars (c :: rest) = spec_from_chars rest := by
        simp only [spec_from_chars, firstDigitRun, hdrop2]
      rw [h1, h2]
      exact ih (fun a ha => hnc a (List.mem_cons_of_mem c ha))

/-- C9: a scheme inserted without an explicit benefit amount stores the
value of the first numeric token of the benefit text with commas stripped,
and 0 when the text is empty or holds no numeric token (both facts are
packed into `spec_benefit_value`). -/
theorem derived_benefit_amount (benefit : String) :
    stored_benefit_amount none benefit = spec_benefit_value benefit := by
  unfold stored_benefit_amount parse_benefit_amount spec_benefit_value
  by_cases hb : benefit = ""
  · subst hb
    simp [spec_from_chars, firstDigitRun]
  · rw [if_neg hb]
    apply parse_from_chars_eq_spec
    intro c hc
    have := List.mem_filter.mp hc
    simpa using this.2

/-- C8 (failing input): the eligibility route ranks only when more than one
scheme matched, so a response containing exactly one scheme carries no
`relevance_score` annotation — contradicting the contract that every scheme
in a successful response is annotated. -/
theorem singleton_response_lacks_score :
    (eligible_response constSim [wA] "Punjab" "Wheat" 3 (some "Rabi")).map
      (fun s => s.relevance_score) = [none] := rfl

/-- C7: within one candidate set (one shared benefit denominator), two
schemes with identical synthesised documents — hence equal similarity to
the farmer document — are scored so that the one with the strictly larger
(nonnegative) benefit amount receives a combined score at least as large. -/
theorem benefit_monotonicity (schemes : List Scheme) (a b : Scheme) (sa sb : ℚ)
    (ha : a ∈ schemes) (hb : b ∈ schemes)
    (hnn : ∀ s ∈ schemes, 0 ≤ s.benefit_amount)
    (hdoc : build_scheme_profile a = build_scheme_profile b)
    (hsim : sa = sb)
    (hben : b.benefit_amount < a.benefit_amount) :
    combined_score (codeMaxBenefit schemes) sb b
      ≤ combined_score (codeMaxBenefit schemes) sa a := by
  subst hsim
  have h0b : 0 ≤ b.benefit_amount := hnn b hb
  have hraw : a.benefit_amount ≤ rawMaxBenefit schemes := mem_le_rawMaxBenefit schemes a ha
  have hrawpos : 0 < rawMaxBenefit schemes := lt_of_lt_of_le (lt_of_le_of_lt h0b hben) hraw
  have hM : codeMaxBenefit schemes = rawMaxBenefit schemes := by
    unfold codeMaxBenefit
    rw [if_neg (ne_of_gt hrawpos)]
  have hMpos : 0 < codeMaxBenefit schemes := hM ▸ hrawpos
  unfold combined_score
  apply round4_mono
  have hdiv : b.benefit_amount / codeMaxBenefit schemes
      ≤ a.benefit_amount / codeMaxBenefit schemes :=
    (div_le_div_right hMpos).mpr hben.le
  linarith

/-- Witness for C7 with two textually identical schemes of benefit 6000
and 9000 in the same candidate set. -/
theorem benefit_monotonicity_witness :
    combined_score (codeMaxBenefit [wA, wC]) 0 wA
      ≤ combined_score (codeMaxBenefit [wA, wC]) 0 wC :=
  benefit_monotonicity [wA, wC] wC wA 0 0 (by decide) (by decide)
    (by decide) rfl rfl (by decide)

/-- C1 (amended): when vectorisation succeeds on at least two schemes, each
scheme is scored `round(0.6 * similarity + 0.4 * benefitAmount / D, 4)`
where `D` is the maximum benefit amount of the candidate set when that
maximum is nonzero and 1 otherwise (`codeMaxBenefit`), and the result is
exactly the scored list sorted descending by score, stably: it is a
permutation of the scored list, pairwise sorted, and for every score value
the schemes carrying it keep their input relative order. -/
theorem ranking_formula_sorted_stable
    (sim : SimOracle) (schemes scored : List Scheme) (sims : List ℚ)
    (state crop : String) (land_size : ℚ) (season : String)
    (h2 : 2 ≤ schemes.length)
    (hsim : sim (build_farmer_profile state crop land_size season)
        (schemes.map build_scheme_profile) = some sims)
    (hlen : sims.length = schemes.length)
    (hscored : scored = schemes.enum.map (fun p =>
        { p.2 with relevance_score := some (round4
            (0.6 * sims.getD p.1 0 +
             0.4 * (p.2.benefit_amount / codeMaxBenefit schemes))) })) :
    (rank_schemes sim schemes state crop land_size season).Perm scored ∧
    (rank_schemes sim schemes state crop land_size season).Pairwise
      (fun x y => y.relevance_score.getD 0 ≤ x.relevance_score.getD 0) ∧
    ∀ v : ℚ, (rank_schemes sim schemes state crop land_size season).filter
        (fun s => s.relevance_score.getD 0 = v)
      = scored.filter (fun s => s.relevance_score.getD 0 = v) := by
  match schemes, hsim, hscored with
  | [], hsim, hscored => simp at h2
  | [_], hsim, hscored => simp at h2
  | s1 :: s2 :: rest, hsim, hscored =>
    have hrank : rank_schemes sim (s1 :: s2 :: rest) state crop land_size season
        = (score_schemes sims (s1 :: s2 :: rest)).mergeSort rankLE := by
      show rank_many sim (s1 :: s2 :: rest) state crop land_size season = _
      simp only [rank_many]
      rw [hsim]
    have hscored2 : scored = score_schemes sims (s1 :: s2 :: rest) := by
      rw [hscored]; rfl
    rw [hrank, hscored2]
    refine ⟨List.mergeSort_perm _ _, ?_, ?_⟩
    · exact (List.sorted_mergeSort rankLE_trans rankLE_total
        (score_schemes sims (s1 :: s2 :: rest))).imp
        (fun h => by simpa [rankLE] using h)
    · intro v
      apply mergeSort_filter_fixed rankLE rankLE_trans rankLE_total
      intro x y hx hy
      simp only [decide_eq_true_eq] at hx hy
      simp [rankLE, hx, hy]

/-- Witness for the amended C1 at a two-scheme input with the zero
similarity oracle: the output is sorted descending by the attached score. -/
theorem ranking_formula_sorted_stable_witness :
    (rank_schemes constSim [wA, wB] "Punjab" "Wheat" 3 "Rabi").Pairwise
      (fun x y => y.relevance_score.getD 0 ≤ x.relevance_score.getD 0) :=
  (ranking_formula_sorted_stable constSim [wA, wB] _ [0, 0] "Punjab" "Wheat" 3 "Rabi"
    (by decide) rfl (by decide) rfl).2.1

/-- C1 (counterexample to the claimed denominator): on two candidate
schemes with benefit amounts 1/2 and 0 and zero text similarity, the code
scores the first scheme 0.4 (it divides by the nonzero maximum 1/2), while
the formula of the claim — denominator `max(benefitAmounts, 1) = 1` —
yields 0.2: the claimed score equation fails at this input. -/
theorem claimed_denominator_refuted :
    ((rank_schemes constSim [cxA, cxB] "Punjab" "Wheat" 3 "Rabi").map
        (fun s => s.relevance_score) = [some (2/5), some 0]) ∧
    round4 (0.6 * 0 + 0.4 * (cxA.benefit_amount / spec_claim_denominator [cxA, cxB]))
      = 1/5 ∧
    ((2 : ℚ)/5 ≠ 1/5) := by
  refine ⟨?_, ?_, by norm_num⟩
  · show ((rank_many constSim [cxA, cxB] "Punjab" "Wheat" 3 "Rabi").map
        (fun s => s.relevance_score) = _)
    simp only [rank_many, constSim, List.map_cons, List.map_nil]
    simp only [score_schemes, codeMaxBenefit, rawMaxBenefit, combined_score,
      List.enum, List.enumFrom, List.map_cons, List.map_nil, cxA, cxB, wA, wB]
    norm_num
    have hr1 : round4 (2/5) = 2/5 := by norm_num [round4, roundHalfEven]
    have hr0 : round4 0 = 0 := by norm_num [round4, roundHalfEven]
    rw [hr1, hr0]
    simp [List.mergeSort, List.merge, rankLE]
    norm_num
  · have hden : spec_claim_denominator [cxA, cxB] = 1 := by
      simp [spec_claim_denominator, cxA, cxB, wA, wB, List.foldl, max_def]
      norm_num
    rw [hden]
    norm_num [cxA, wA, round4, roundHalfEven]
